import Mathlib

/-! Shallow embedding of the papermill metadata-extraction orchestrator
(src/papermill/metadata/__init__.py, src/papermill/metadata/base.py,
src/papermill/metadata/isbn.py) in Lean 4, together with theorems about
the claims of the design document.

Modelling conventions:
* A filesystem path of an input document is a pair of stem and suffix
  (Python pathlib `Path.stem` / `Path.suffix`).
* The two persistent stores (the category store of serialized records and
  the outlier store) are association lists from file stem to a stored
  payload.  A stored payload either deserializes to a value
  (`Payload.valid`) or fails to parse (`Payload.corrupt`); this models the
  serialized JSON file at `<store>/<stem>.json`, with the round trip of
  the JSON library taken as exact (all record fields are strings and
  string lists).
* Directories that exist on disk are a list of segment lists;
  `Path.mkdir(parents=True, exist_ok=True)` inserts every nonempty prefix.
* An extraction strategy is a name plus a function from the file to a
  result: a record, a miss (Python `None`), or a raised exception
  (modelled by `StratResult.raised` carrying the message).  Python
  exceptions propagating out of `_get_metadata` are modelled by
  `Except.error`.
* `_get_metadata` dispatches on the document type to a category name, a
  suffix allow-list and an extractor chain; the embedding `get_metadata`
  takes the dispatched triple (`CatConfig`) as an argument, and the two
  concrete configurations of the source are given below.  The
  `UnReachable` branch for an unrecognized type is outside every claim
  but the dispatch data is kept.
* The extraction helper (`ExtractionHelper.get_text` with its
  `cachetools` memoization) is modelled by `get_text` over an explicit
  cache state; the extracted text is a byte list (`List Nat`), the UTF-8
  decoding step is dropped since every claim is about byte counts.
-/

/-- Stem and suffix of a document path, the parts of `pathlib.Path` the
orchestrator consults (`file.stem`, `file.suffix`). -/
structure FP where
  stem : String
  sfx : String
deriving DecidableEq, Repr

/-- BookData from base.py: title, isbn, description, published_date, authors. -/
structure BookData where
  title : String
  isbn : String
  description : String
  published_date : String
  authors : List String
deriving DecidableEq, Repr

/-- PaperData from base.py: title, abstract, publication_date, authors. -/
structure PaperData where
  title : String
  abstract : String
  publication_date : String
  authors : List String
deriving DecidableEq, Repr

/-- OutlierData from metadata/__init__.py: the outlier file path and the
list of extractor names attempted on it. -/
structure OutlierData where
  filepath : FP
  extractors_attempted : List String
deriving DecidableEq, Repr

/-- A serialized payload sitting in a store slot: it either deserializes
to a value or fails to parse (a corrupt or half-written file). -/
inductive Payload (α : Type) where
  | valid (v : α)
  | corrupt
deriving DecidableEq, Repr

/-- Association-list lookup by key (first binding wins), the model of
reading the JSON file named by the key. -/
def lookupKey {κ β : Type} [DecidableEq κ] : List (κ × β) → κ → Option β
  | [], _ => none
  | (k, v) :: rest, key => if k = key then some v else lookupKey rest key

/-- Remove every binding of a key: the model of `Path.unlink`. -/
def eraseKey {κ β : Type} [DecidableEq κ] : List (κ × β) → κ → List (κ × β)
  | [], _ => []
  | (k, v) :: rest, key =>
      if k = key then eraseKey rest key else (k, v) :: eraseKey rest key

/-- Overwrite the binding of a key: the model of `open(path, "w")` plus
`to_json`. -/
def insertKey {κ β : Type} [DecidableEq κ] (l : List (κ × β)) (key : κ) (v : β) :
    List (κ × β) :=
  (key, v) :: eraseKey l key

/-- deserialize_or_delete from metadata/__init__.py: try to deserialize
the slot; on a parse failure warn, delete the file and return `none`.
Called only when the slot exists. -/
def deserialize_or_delete {β : Type} (store : List (String × Payload β))
    (key : String) : Option β × List (String × Payload β) :=
  match lookupKey store key with
  | some (Payload.valid v) => (some v, store)
  | _ => (none, eraseKey store key)

/-- try_from_cache from metadata/__init__.py: if the slot file exists,
deserialize_or_delete it, otherwise return `none` untouched. -/
def try_from_cache {β : Type} (store : List (String × Payload β))
    (key : String) : Option β × List (String × Payload β) :=
  if (lookupKey store key).isSome then deserialize_or_delete store key
  else (none, store)

/-- Outcome of one strategy invocation: a record, an ordinary miss
(Python `None`), or an exception raised inside the strategy. -/
inductive StratResult (α : Type) where
  | found (r : α)
  | miss
  | raised (msg : String)
deriving DecidableEq, Repr

/-- An extraction strategy: its stable `__name__` and its behaviour on a
file (the `ExtractionHelper` argument is absorbed into the behaviour). -/
structure Extractor (α : Type) where
  name : String
  run : FP → StratResult α

/-- supported_book_extensions from metadata/__init__.py. -/
def supported_book_extensions : List String := [".pdf", ".epub"]

/-- supported_paper_extensions from metadata/__init__.py. -/
def supported_paper_extensions : List String := [".pdf"]

/-- The data the `match document_type.__name__` dispatch of
`_get_metadata` resolves: metadata root, category name, suffix
allow-list and extractor chain. -/
structure CatConfig (α : Type) where
  metadataPath : List String
  category : String
  supportedExtensions : List String
  extractors : List (Extractor α)

/-- `self.config.metadata_path / category`. -/
def categoryPath {α : Type} (cfg : CatConfig α) : List String :=
  cfg.metadataPath ++ [cfg.category]

/-- `self.config.metadata_path / "Outliers" / category`. -/
def outlierPath {α : Type} (cfg : CatConfig α) : List String :=
  cfg.metadataPath ++ ["Outliers", cfg.category]

/-- Insert a directory if absent (`exist_ok=True`). -/
def insertDir (d : List String) (dirs : List (List String)) : List (List String) :=
  if d ∈ dirs then dirs else d :: dirs

/-- `Path.mkdir(parents=True, exist_ok=True)`: create the directory and
every missing ancestor. -/
def mkdirParents (p : List String) (dirs : List (List String)) : List (List String) :=
  (p.inits.filter (fun q => ¬ q = [])).foldl (fun acc q => insertDir q acc) dirs

/-- The mutable world `_get_metadata` touches: the directories that
exist, the category store slots and the outlier store slots (keyed by
file stem). -/
structure MHState (α : Type) where
  dirs : List (List String)
  catStore : List (String × Payload α)
  outStore : List (String × Payload OutlierData)
deriving DecidableEq

/-- Result of one `_get_metadata` call: the returned value (with
`Except.error` for an uncaught exception), the world after the call, and
the names of the strategies actually invoked, in invocation order. -/
structure RunOutcome (α : Type) where
  result : Except String (Option α)
  state : MHState α
  invoked : List String

/-- The `for extractor in extractors` loop of `_get_metadata`: skip the
extractors whose name is in the failed set, stop at the first record or
at the first uncaught exception; also report which extractors were
invoked. -/
def runChain {α : Type} (file : FP) (failed : List String) :
    List (Extractor α) → Except String (Option α) × List String
  | [] => (Except.ok none, [])
  | e :: rest =>
      if e.name ∈ failed then runChain file failed rest
      else
        match e.run file with
        | StratResult.found r => (Except.ok (some r), [e.name])
        | StratResult.miss =>
            let tail := runChain file failed rest
            (tail.1, e.name :: tail.2)
        | StratResult.raised msg => (Except.error msg, [e.name])

/-- The failed-extractor set `_get_metadata` derives from the outlier
slot: the attempted names when an entry deserialized, empty otherwise. -/
def failed_of (od : Option OutlierData) : List String :=
  match od with
  | some od => od.extractors_attempted
  | none => []

/-- MetadataHandler._get_metadata after the category dispatch: create the
two storage directories, sanity-check the file, consult the category
store, consult the outlier store, run the remaining chain, and persist
either the record or the outlier entry listing the full chain. -/
def get_metadata {α : Type} (cfg : CatConfig α) (is_file : FP → Bool)
    (file : FP) (st : MHState α) : RunOutcome α :=
  let dirs1 := mkdirParents (outlierPath cfg) (mkdirParents (categoryPath cfg) st.dirs)
  if is_file file = true ∧ file.sfx ∈ cfg.supportedExtensions then
    let cat := try_from_cache st.catStore file.stem
    match cat.1 with
    | some doc_data =>
        ⟨Except.ok (some doc_data), ⟨dirs1, cat.2, st.outStore⟩, []⟩
    | none =>
        let out := try_from_cache st.outStore file.stem
        let failed_extractors := failed_of out.1
        let chain := runChain file failed_extractors cfg.extractors
        match chain.1 with
        | Except.ok (some data) =>
            ⟨Except.ok (some data),
             ⟨dirs1, insertKey cat.2 file.stem (Payload.valid data), out.2⟩,
             chain.2⟩
        | Except.ok none =>
            ⟨Except.ok none,
             ⟨dirs1, cat.2,
              insertKey out.2 file.stem
                (Payload.valid ⟨file, cfg.extractors.map Extractor.name⟩)⟩,
             chain.2⟩
        | Except.error msg => ⟨Except.error msg, ⟨dirs1, cat.2, out.2⟩, chain.2⟩
  else
    ⟨Except.ok none, ⟨dirs1, st.catStore, st.outStore⟩, []⟩

/-- The `cachetools` cache behind `ExtractionHelper.get_text`: a map from
the pair of file and byte limit (the `hashkey(file, limit)` key) to the
text computed for it. -/
structure TextCache where
  entries : List ((FP × Nat) × List Nat)
deriving DecidableEq

/-- ExtractionHelper.get_text from base.py over an explicit cache state:
on a cache hit return the memoized text without touching the engine; on
a miss run the extraction engine (`extract_file`, giving the full
extractable byte sequence of the file), keep the whole text when the
limit is 0 and the first `limit` bytes otherwise, and memoize.  The last
component counts the engine invocations of this call (0 or 1). -/
def get_text (extract_file : FP → List Nat) (st : TextCache) (file : FP)
    (limit : Nat) : List Nat × TextCache × Nat :=
  match lookupKey st.entries (file, limit) with
  | some t => (t, st, 0)
  | none =>
      let full := extract_file file
      let t := if limit = 0 then full else full.take limit
      (t, ⟨((file, limit), t) :: st.entries⟩, 1)

/-- A `get_text` call that leaves the limit at its Python default of
4096 bytes (both the signature default and the `hashkey` lambda default). -/
def get_text_default (extract_file : FP → List Nat) (st : TextCache)
    (file : FP) : List Nat × TextCache × Nat :=
  get_text extract_file st file 4096

/-- Run a sequence of `get_text` calls, threading the cache, and log the
key of every call that actually invoked the extraction engine. -/
def run_calls (extract_file : FP → List Nat) (st : TextCache) :
    List (FP × Nat) → List (FP × Nat)
  | [] => []
  | (f, n) :: rest =>
      let r := get_text extract_file st f n
      (if r.2.2 = 1 then [(f, n)] else []) ++ run_calls extract_file r.2.1 rest

/-- The `for isbn in flpc.findall(...)` loop of search_isbn: query each
candidate ISBN in order and return the first hit (the Google Books call
and its JSON shape are abstracted into `look`). -/
def first_lookup_hit (isbns : List String) (look : String → Option BookData) :
    Option BookData :=
  match isbns with
  | [] => none
  | i :: rest =>
      match look i with
      | some b => some b
      | none => first_lookup_hit rest look

/-- search_isbn from isbn.py: fetch the book text through
`helper.get_text(book_path)` (default byte limit), scan it for ISBN
candidates (`findall` abstracts the compiled isbn10or13 regex) and
return the first catalog hit.  The multiple-match `sys.exit` branch is
outside every claim and is absorbed into `look`. -/
def search_isbn (extract_file : FP → List Nat)
    (findall : List Nat → List String) (look : String → Option BookData)
    (st : TextCache) (book_path : FP) : Option BookData × TextCache :=
  let r := get_text_default extract_file st book_path
  (first_lookup_hit (findall r.1) look, r.2.1)

/-! Helper lemmas about the store primitives. -/

theorem lookupKey_eraseKey_self {κ β : Type} [DecidableEq κ]
    (l : List (κ × β)) (k : κ) : lookupKey (eraseKey l k) k = none := by
  induction l with
  | nil => rfl
  | cons p rest ih =>
      obtain ⟨k0, v0⟩ := p
      by_cases h : k0 = k
      · simp [eraseKey, h, ih]
      · simp [eraseKey, lookupKey, h, ih]

theorem lookupKey_insertKey_self {κ β : Type} [DecidableEq κ]
    (l : List (κ × β)) (k : κ) (v : β) :
    lookupKey (insertKey l k v) k = some v := by
  simp [insertKey, lookupKey]

theorem try_from_cache_of_lookup_none {β : Type}
    (store : List (String × Payload β)) (key : String)
    (h : lookupKey store key = none) :
    try_from_cache store key = (none, store) := by
  simp [try_from_cache, h]

theorem try_from_cache_of_valid {β : Type}
    (store : List (String × Payload β)) (key : String) (v : β)
    (h : lookupKey store key = some (Payload.valid v)) :
    try_from_cache store key = (some v, store) := by
  simp [try_from_cache, deserialize_or_delete, h]

theorem try_from_cache_of_corrupt {β : Type}
    (store : List (String × Payload β)) (key : String)
    (h : lookupKey store key = some Payload.corrupt) :
    try_from_cache store key = (none, eraseKey store key) := by
  simp [try_from_cache, deserialize_or_delete, h]

theorem lookupKey_snd_of_try_none {β : Type}
    (store : List (String × Payload β)) (key : String)
    (h : (try_from_cache store key).1 = none) :
    lookupKey (try_from_cache store key).2 key = none := by
  rcases hl : lookupKey store key with _ | pv
  · rw [try_from_cache_of_lookup_none store key hl]
    exact hl
  · cases pv with
    | valid v =>
        rw [try_from_cache_of_valid store key v hl] at h
        simp at h
    | corrupt =>
        rw [try_from_cache_of_corrupt store key hl]
        exact lookupKey_eraseKey_self store key

/-! Helper lemmas about the strategy chain. -/

theorem runChain_all_skipped {α : Type} (file : FP) (failed : List String)
    (extractors : List (Extractor α))
    (h : ∀ e ∈ extractors, e.name ∈ failed) :
    runChain file failed extractors = (Except.ok none, []) := by
  induction extractors with
  | nil => rfl
  | cons e rest ih =>
      have he : e.name ∈ failed := h e (List.mem_cons_self e rest)
      simp only [runChain, if_pos he]
      exact ih fun x hx => h x (List.mem_cons_of_mem e hx)

theorem runChain_head_found {α : Type} (file : FP) (failed : List String)
    (A : Extractor α) (rest : List (Extractor α)) (r : α)
    (hA : A.name ∉ failed) (hr : A.run file = StratResult.found r) :
    runChain file failed (A :: rest) = (Except.ok (some r), [A.name]) := by
  simp [runChain, hA, hr]

theorem runChain_raised {α : Type} (file : FP) (failed : List String)
    (pre post : List (Extractor α)) (e : Extractor α) (msg : String)
    (hpre : ∀ x ∈ pre, x.name ∈ failed ∨ x.run file = StratResult.miss)
    (he : e.name ∉ failed) (hr : e.run file = StratResult.raised msg) :
    (runChain file failed (pre ++ e :: post)).1 = Except.error msg := by
  induction pre with
  | nil => simp [runChain, he, hr]
  | cons x xs ih =>
      have hx := hpre x (List.mem_cons_self x xs)
      have ihx := ih fun y hy => hpre y (List.mem_cons_of_mem x hy)
      rcases hx with hx | hx
      · simpa [runChain, if_pos hx] using ihx
      · by_cases hxf : x.name ∈ failed
        · simpa [runChain, if_pos hxf] using ihx
        · simp only [List.cons_append, runChain, if_neg hxf, hx]
          exact ihx

/-! Helper lemmas about directory creation. -/

theorem mem_insertDir_self (d : List String) (dirs : List (List String)) :
    d ∈ insertDir d dirs := by
  unfold insertDir
  by_cases h : d ∈ dirs
  · simp [h]
  · simp [h]

theorem mem_insertDir_of_mem {x : List String} {dirs : List (List String)}
    (d : List String) (h : x ∈ dirs) : x ∈ insertDir d dirs := by
  unfold insertDir
  by_cases hd : d ∈ dirs
  · simpa [hd]
  · simp [hd, h]

theorem mem_foldl_insertDir_of_mem {x : List String}
    (l : List (List String)) (dirs : List (List String)) (h : x ∈ dirs) :
    x ∈ l.foldl (fun acc q => insertDir q acc) dirs := by
  induction l generalizing dirs with
  | nil => simpa
  | cons q rest ih => exact ih (insertDir q dirs) (mem_insertDir_of_mem q h)

theorem mem_foldl_insertDir_of_mem_list {x : List String}
    (l : List (List String)) (dirs : List (List String)) (h : x ∈ l) :
    x ∈ l.foldl (fun acc q => insertDir q acc) dirs := by
  induction l generalizing dirs with
  | nil => cases h
  | cons q rest ih =>
      rcases List.mem_cons.mp h with rfl | hx
      · exact mem_foldl_insertDir_of_mem rest (insertDir x dirs)
          (mem_insertDir_self x dirs)
      · exact ih (insertDir q dirs) hx

theorem mem_mkdirParents_of_mem {x : List String} (p : List String)
    (dirs : List (List String)) (h : x ∈ dirs) : x ∈ mkdirParents p dirs :=
  mem_foldl_insertDir_of_mem _ dirs h

theorem mem_mkdirParents_of_init {q p : List String}
    (dirs : List (List String)) (hq : q ∈ p.inits) (hne : ¬ q = []) :
    q ∈ mkdirParents p dirs := by
  refine mem_foldl_insertDir_of_mem_list _ dirs ?_
  simp [List.mem_filter, hq, hne]

theorem self_mem_inits (p : List String) : p ∈ p.inits := by
  simp [List.mem_inits]

theorem mem_mkdirParents_self (p : List String) (dirs : List (List String))
    (hne : ¬ p = []) : p ∈ mkdirParents p dirs :=
  mem_mkdirParents_of_init dirs (self_mem_inits p) hne

/-! Concrete instances used by the witness theorems. -/

/-- A concrete book record. -/
def exBook : BookData := ⟨"C Prog", "9780131103627", "The book", "1988", ["K", "R"]⟩

/-- A second, different book record. -/
def exBook2 : BookData := ⟨"Other", "111", "Backup hit", "1999", ["X"]⟩

/-- A concrete pdf file. -/
def exFile : FP := ⟨"9780131103627", ".pdf"⟩

/-- A concrete file with a suffix outside the book allow-list. -/
def exTxtFile : FP := ⟨"notes", ".txt"⟩

/-- The book configuration of `_get_metadata` (category "books", the
supported book extensions) over a given extractor chain, rooted at the
default metadata path segment. -/
def exCfg (extractors : List (Extractor BookData)) : CatConfig BookData :=
  ⟨["data"], "books", supported_book_extensions, extractors⟩

/-- The empty world: no directories, no store entries. -/
def emptySt : MHState BookData := ⟨[], [], []⟩

/-- A filesystem on which every path is a regular file. -/
def allFiles : FP → Bool := fun _ => true

/-- A strategy that always succeeds with `exBook`, named like search_isbn. -/
def exA : Extractor BookData := ⟨"search_isbn", fun _ => StratResult.found exBook⟩

/-- A strategy that always succeeds with `exBook2`, named like
backup_book_search. -/
def exB : Extractor BookData := ⟨"backup_book_search", fun _ => StratResult.found exBook2⟩

/-- A strategy that always misses, named like search_isbn. -/
def exMissA : Extractor BookData := ⟨"search_isbn", fun _ => StratResult.miss⟩

/-- A strategy that always misses, named like backup_book_search. -/
def exMissB : Extractor BookData := ⟨"backup_book_search", fun _ => StratResult.miss⟩

/-- A strategy that raises, as search_isbn does when `urlopen` fails. -/
def exRaise : Extractor BookData := ⟨"search_isbn", fun _ => StratResult.raised "URLError"⟩

/-! Helper lemmas about whole `get_metadata` runs. -/

/-- On a validated file whose category-store slot deserializes, the call
returns the stored record, invokes nothing, and leaves both stores as
they were. -/
theorem get_metadata_cache_hit {α : Type} (cfg : CatConfig α)
    (is_file : FP → Bool) (file : FP) (st : MHState α) (r : α)
    (hf : is_file file = true) (hs : file.sfx ∈ cfg.supportedExtensions)
    (hcache : lookupKey st.catStore file.stem = some (Payload.valid r)) :
    (get_metadata cfg is_file file st).result = Except.ok (some r) ∧
    (get_metadata cfg is_file file st).invoked = [] ∧
    (get_metadata cfg is_file file st).state.catStore = st.catStore ∧
    (get_metadata cfg is_file file st).state.outStore = st.outStore := by
  simp [get_metadata, hf, hs, try_from_cache_of_valid _ _ _ hcache]

/-- On a validated, category-uncached file, a call that returns a record
has stored that record in the category-store slot of the stem. -/
theorem get_metadata_success_store {α : Type} (cfg : CatConfig α)
    (is_file : FP → Bool) (file : FP) (st : MHState α) (r : α)
    (hf : is_file file = true) (hs : file.sfx ∈ cfg.supportedExtensions)
    (hcat : (try_from_cache st.catStore file.stem).1 = none)
    (hres : (get_metadata cfg is_file file st).result = Except.ok (some r)) :
    lookupKey (get_metadata cfg is_file file st).state.catStore file.stem
      = some (Payload.valid r) := by
  rcases hch : runChain file (failed_of (try_from_cache st.outStore file.stem).1)
      cfg.extractors with ⟨res, inv⟩
  cases res with
  | error msg => simp [get_metadata, hf, hs, hcat, hch] at hres
  | ok o =>
      cases o with
      | none => simp [get_metadata, hf, hs, hcat, hch] at hres
      | some data =>
          have hdr : data = r := by
            simpa [get_metadata, hf, hs, hcat, hch] using hres
          subst hdr
          simp [get_metadata, hf, hs, hcat, hch, lookupKey_insertKey_self]

/-- On a validated, category-uncached file whose chain run exhausts with
no record and no exception, the call returns no result, invokes exactly
the non-skipped extractors, leaves the category store at its
post-cache-read value, and overwrites the outlier slot with the full
chain name list. -/
theorem get_metadata_exhausted {α : Type} (cfg : CatConfig α)
    (is_file : FP → Bool) (file : FP) (st : MHState α) (inv : List String)
    (hf : is_file file = true) (hs : file.sfx ∈ cfg.supportedExtensions)
    (hcat : (try_from_cache st.catStore file.stem).1 = none)
    (hch : runChain file (failed_of (try_from_cache st.outStore file.stem).1)
      cfg.extractors = (Except.ok none, inv)) :
    (get_metadata cfg is_file file st).result = Except.ok none ∧
    (get_metadata cfg is_file file st).invoked = inv ∧
    (get_metadata cfg is_file file st).state.catStore
      = (try_from_cache st.catStore file.stem).2 ∧
    (get_metadata cfg is_file file st).state.outStore
      = insertKey (try_from_cache st.outStore file.stem).2 file.stem
          (Payload.valid ⟨file, cfg.extractors.map Extractor.name⟩) := by
  simp [get_metadata, hf, hs, hcat, hch]

/-! Claim theorems. -/

/-- C8 (frame_effect): for a file whose suffix is not in the allow-list
of its category, with no Record cached, `_get_metadata` returns no
result, invokes no strategy, and neither creates nor modifies any
category-store or outlier-store entry. -/
theorem suffix_filtering_no_effect {α : Type} (cfg : CatConfig α)
    (is_file : FP → Bool) (file : FP) (st : MHState α)
    (hs : file.sfx ∉ cfg.supportedExtensions)
    (_hcat : lookupKey st.catStore file.stem = none) :
    (get_metadata cfg is_file file st).result = Except.ok none ∧
    (get_metadata cfg is_file file st).invoked = [] ∧
    (get_metadata cfg is_file file st).state.catStore = st.catStore ∧
    (get_metadata cfg is_file file st).state.outStore = st.outStore := by
  have hcond : ¬ (is_file file = true ∧ file.sfx ∈ cfg.supportedExtensions) :=
    fun h => hs h.2
  simp [get_metadata, hcond]

/-- Witness for C8 at a concrete input: a txt file under the book
configuration is skipped with no store effect. -/
theorem suffix_filtering_no_effect_witness :
    (get_metadata (exCfg [exA, exB]) allFiles exTxtFile emptySt).result
      = Except.ok none ∧
    (get_metadata (exCfg [exA, exB]) allFiles exTxtFile emptySt).invoked = [] ∧
    (get_metadata (exCfg [exA, exB]) allFiles exTxtFile emptySt).state.catStore
      = emptySt.catStore ∧
    (get_metadata (exCfg [exA, exB]) allFiles exTxtFile emptySt).state.outStore
      = emptySt.outStore :=
  suffix_filtering_no_effect (exCfg [exA, exB]) allFiles exTxtFile emptySt
    (by decide) rfl

/-- C5 (functional_correctness): if the head strategy of the chain
succeeds on a validated, uncached file (and is not in the failed set),
`_get_metadata` persists and returns its record and invokes no later
strategy of the chain: the invoked list is exactly the head name. -/
theorem first_success_priority {α : Type} (cfg : CatConfig α)
    (is_file : FP → Bool) (file : FP) (st : MHState α)
    (A : Extractor α) (rest : List (Extractor α)) (ra : α)
    (hext : cfg.extractors = A :: rest)
    (hf : is_file file = true)
    (hs : file.sfx ∈ cfg.supportedExtensions)
    (hcat : (try_from_cache st.catStore file.stem).1 = none)
    (hA1 : A.name ∉ failed_of (try_from_cache st.outStore file.stem).1)
    (hA2 : A.run file = StratResult.found ra) :
    (get_metadata cfg is_file file st).result = Except.ok (some ra) ∧
    (get_metadata cfg is_file file st).invoked = [A.name] ∧
    lookupKey (get_metadata cfg is_file file st).state.catStore file.stem
      = some (Payload.valid ra) := by
  have hchain := runChain_head_found file
    (failed_of (try_from_cache st.outStore file.stem).1) A rest ra hA1 hA2
  simp [get_metadata, hf, hs, hext, hcat, hchain, lookupKey_insertKey_self]

/-- C3 (algebraic_relational): if a first call on a validated,
category-uncached file returns a record, then a second call with the
same chain returns the same record read back from the category store and
invokes zero strategies. -/
theorem resolve_idempotent {α : Type} (cfg : CatConfig α)
    (is_file : FP → Bool) (file : FP) (st : MHState α) (r : α)
    (hf : is_file file = true)
    (hs : file.sfx ∈ cfg.supportedExtensions)
    (hcat : (try_from_cache st.catStore file.stem).1 = none)
    (hres : (get_metadata cfg is_file file st).result = Except.ok (some r)) :
    (get_metadata cfg is_file file (get_metadata cfg is_file file st).state).result
      = Except.ok (some r) ∧
    (get_metadata cfg is_file file (get_metadata cfg is_file file st).state).invoked
      = [] := by
  have hstore := get_metadata_success_store cfg is_file file st r hf hs hcat hres
  have hhit := get_metadata_cache_hit cfg is_file file
    (get_metadata cfg is_file file st).state r hf hs hstore
  exact ⟨hhit.1, hhit.2.1⟩

/-- Witness for C3 at a concrete input: after a successful first
resolution the second call returns the same record with no invocation. -/
theorem resolve_idempotent_witness :
    (get_metadata (exCfg [exA, exB]) allFiles exFile
        (get_metadata (exCfg [exA, exB]) allFiles exFile emptySt).state).result
      = Except.ok (some exBook) ∧
    (get_metadata (exCfg [exA, exB]) allFiles exFile
        (get_metadata (exCfg [exA, exB]) allFiles exFile emptySt).state).invoked
      = [] :=
  resolve_idempotent (exCfg [exA, exB]) allFiles exFile emptySt exBook
    rfl (by decide) rfl rfl

/-- C4 (functional_correctness): when the chain is `[A, B]`, both miss on
a validated file with empty store slots, the exhausting run records
exactly the names of A and B in the outlier slot; the subsequent call
with the same chain invokes neither A nor B and records the same set
again. -/
theorem no_redundant_retry {α : Type} (cfg : CatConfig α)
    (is_file : FP → Bool) (file : FP) (st : MHState α) (A B : Extractor α)
    (hext : cfg.extractors = [A, B])
    (hf : is_file file = true) (hs : file.sfx ∈ cfg.supportedExtensions)
    (hcat : lookupKey st.catStore file.stem = none)
    (hout : lookupKey st.outStore file.stem = none)
    (hA : A.run file = StratResult.miss) (hB : B.run file = StratResult.miss) :
    (get_metadata cfg is_file file st).result = Except.ok none ∧
    (get_metadata cfg is_file file st).invoked = [A.name, B.name] ∧
    lookupKey (get_metadata cfg is_file file st).state.outStore file.stem
      = some (Payload.valid (⟨file, [A.name, B.name]⟩ : OutlierData)) ∧
    (get_metadata cfg is_file file (get_metadata cfg is_file file st).state).result
      = Except.ok none ∧
    (get_metadata cfg is_file file (get_metadata cfg is_file file st).state).invoked
      = [] ∧
    lookupKey (get_metadata cfg is_file file
        (get_metadata cfg is_file file st).state).state.outStore file.stem
      = some (Payload.valid (⟨file, [A.name, B.name]⟩ : OutlierData)) := by
  have htc : try_from_cache st.catStore file.stem = (none, st.catStore) :=
    try_from_cache_of_lookup_none _ _ hcat
  have hto : try_from_cache st.outStore file.stem = (none, st.outStore) :=
    try_from_cache_of_lookup_none _ _ hout
  have hch1 : runChain file (failed_of (try_from_cache st.outStore file.stem).1)
      cfg.extractors = (Except.ok none, [A.name, B.name]) := by
    simp [hto, failed_of, hext, runChain, hA, hB]
  have h1 := get_metadata_exhausted cfg is_file file st [A.name, B.name] hf hs
    (by simp [htc]) hch1
  obtain ⟨hres1, hinv1, hcat1, hout1⟩ := h1
  have hnames : cfg.extractors.map Extractor.name = [A.name, B.name] := by
    simp [hext]
  have hod1 : lookupKey (get_metadata cfg is_file file st).state.outStore file.stem
      = some (Payload.valid (⟨file, [A.name, B.name]⟩ : OutlierData)) := by
    rw [hout1, hnames, hto]
    exact lookupKey_insertKey_self _ _ _
  have hcat2 : (try_from_cache
      (get_metadata cfg is_file file st).state.catStore file.stem).1 = none := by
    rw [hcat1, htc]
    simp [try_from_cache_of_lookup_none _ _ hcat]
  have hto2 : try_from_cache (get_metadata cfg is_file file st).state.outStore
      file.stem
      = (some (⟨file, [A.name, B.name]⟩ : OutlierData),
         (get_metadata cfg is_file file st).state.outStore) :=
    try_from_cache_of_valid _ _ _ hod1
  have hch2 : runChain file (failed_of (try_from_cache
      (get_metadata cfg is_file file st).state.outStore file.stem).1)
      cfg.extractors = (Except.ok none, []) := by
    rw [hto2]
    refine runChain_all_skipped file _ cfg.extractors ?_
    intro e he
    rw [hext] at he
    rcases List.mem_cons.mp he with rfl | he2
    · simp [failed_of]
    · rcases List.mem_cons.mp he2 with rfl | he3
      · simp [failed_of]
      · cases he3
  have h2 := get_metadata_exhausted cfg is_file file
    (get_metadata cfg is_file file st).state [] hf hs hcat2 hch2
  obtain ⟨hres2, hinv2, _, hout2⟩ := h2
  refine ⟨hres1, hinv1, hod1, hres2, hinv2, ?_⟩
  rw [hout2, hnames, hto2]
  exact lookupKey_insertKey_self _ _ _

/-- Witness for C4 at a concrete input: two missing strategies on an
empty world, with the second call invoking nothing. -/
theorem no_redundant_retry_witness :
    (get_metadata (exCfg [exMissA, exMissB]) allFiles exFile emptySt).result
      = Except.ok none ∧
    (get_metadata (exCfg [exMissA, exMissB]) allFiles exFile emptySt).invoked
      = [exMissA.name, exMissB.name] ∧
    lookupKey (get_metadata (exCfg [exMissA, exMissB]) allFiles exFile
        emptySt).state.outStore exFile.stem
      = some (Payload.valid (⟨exFile, [exMissA.name, exMissB.name]⟩ : OutlierData)) ∧
    (get_metadata (exCfg [exMissA, exMissB]) allFiles exFile
        (get_metadata (exCfg [exMissA, exMissB]) allFiles exFile emptySt).state).result
      = Except.ok none ∧
    (get_metadata (exCfg [exMissA, exMissB]) allFiles exFile
        (get_metadata (exCfg [exMissA, exMissB]) allFiles exFile emptySt).state).invoked
      = [] ∧
    lookupKey (get_metadata (exCfg [exMissA, exMissB]) allFiles exFile
        (get_metadata (exCfg [exMissA, exMissB]) allFiles exFile
          emptySt).state).state.outStore exFile.stem
      = some (Payload.valid (⟨exFile, [exMissA.name, exMissB.name]⟩ : OutlierData)) :=
  no_redundant_retry (exCfg [exMissA, exMissB]) allFiles exFile emptySt
    exMissA exMissB rfl rfl (by decide) rfl rfl rfl rfl

/-- A world whose category-store slot for the example stem is corrupt. -/
def stCatCorr : MHState BookData := ⟨[], [("9780131103627", Payload.corrupt)], []⟩

/-- A world whose outlier-store slot for the example stem is corrupt. -/
def stOutCorr : MHState BookData := ⟨[], [], [("9780131103627", Payload.corrupt)]⟩

/-- C6 (error_handling): a corrupt store slot never makes resolution
raise.  First part: a corrupt category-store slot is treated as a cache
miss, the chain is re-run, and a successful run overwrites the slot with
a valid record.  Second part: a corrupt outlier-store slot is deleted
and treated as an empty failed set, and an exhausting run overwrites it
with a valid outlier entry. -/
theorem corruption_resilience {α : Type} :
    (∀ (cfg : CatConfig α) (is_file : FP → Bool) (file : FP) (st : MHState α)
        (r : α) (inv : List String),
      is_file file = true →
      file.sfx ∈ cfg.supportedExtensions →
      lookupKey st.catStore file.stem = some Payload.corrupt →
      runChain file (failed_of (try_from_cache st.outStore file.stem).1)
          cfg.extractors = (Except.ok (some r), inv) →
      (get_metadata cfg is_file file st).result = Except.ok (some r) ∧
      lookupKey (get_metadata cfg is_file file st).state.catStore file.stem
        = some (Payload.valid r)) ∧
    (∀ (cfg : CatConfig α) (is_file : FP → Bool) (file : FP) (st : MHState α)
        (inv : List String),
      is_file file = true →
      file.sfx ∈ cfg.supportedExtensions →
      (try_from_cache st.catStore file.stem).1 = none →
      lookupKey st.outStore file.stem = some Payload.corrupt →
      runChain file [] cfg.extractors = (Except.ok none, inv) →
      (get_metadata cfg is_file file st).result = Except.ok none ∧
      lookupKey (get_metadata cfg is_file file st).state.outStore file.stem
        = some (Payload.valid
            (⟨file, cfg.extractors.map Extractor.name⟩ : OutlierData))) := by
  constructor
  · intro cfg is_file file st r inv hf hs hcorr hch
    have htc := try_from_cache_of_corrupt st.catStore file.stem hcorr
    constructor <;>
      simp [get_metadata, hf, hs, htc, hch, lookupKey_insertKey_self]
  · intro cfg is_file file st inv hf hs hcat hocorr hch
    have hto := try_from_cache_of_corrupt st.outStore file.stem hocorr
    have hch2 : runChain file (failed_of (try_from_cache st.outStore file.stem).1)
        cfg.extractors = (Except.ok none, inv) := by
      rw [hto]
      simpa [failed_of] using hch
    have h := get_metadata_exhausted cfg is_file file st inv hf hs hcat hch2
    refine ⟨h.1, ?_⟩
    rw [h.2.2.2]
    exact lookupKey_insertKey_self _ _ _

/-- Witness for C6 at concrete inputs: a corrupt category slot followed
by a successful chain, and a corrupt outlier slot followed by an
exhausted chain. -/
theorem corruption_resilience_witness :
    ((get_metadata (exCfg [exA, exB]) allFiles exFile stCatCorr).result
        = Except.ok (some exBook) ∧
     lookupKey (get_metadata (exCfg [exA, exB]) allFiles exFile
         stCatCorr).state.catStore exFile.stem = some (Payload.valid exBook)) ∧
    ((get_metadata (exCfg [exMissA, exMissB]) allFiles exFile stOutCorr).result
        = Except.ok none ∧
     lookupKey (get_metadata (exCfg [exMissA, exMissB]) allFiles exFile
         stOutCorr).state.outStore exFile.stem
       = some (Payload.valid
           (⟨exFile, (exCfg [exMissA, exMissB]).extractors.map Extractor.name⟩
             : OutlierData))) :=
  ⟨corruption_resilience.1 (exCfg [exA, exB]) allFiles exFile stCatCorr exBook
      [exA.name] rfl (by decide) rfl rfl,
   corruption_resilience.2 (exCfg [exMissA, exMissB]) allFiles exFile stOutCorr
      [exMissA.name, exMissB.name] rfl (by decide) rfl rfl rfl⟩

/-- The directories after any `get_metadata` call are exactly the prior
directories extended by the category path, the outlier path and their
missing ancestors. -/
theorem get_metadata_dirs {α : Type} (cfg : CatConfig α)
    (is_file : FP → Bool) (file : FP) (st : MHState α) :
    (get_metadata cfg is_file file st).state.dirs
      = mkdirParents (outlierPath cfg) (mkdirParents (categoryPath cfg) st.dirs) := by
  simp only [get_metadata]
  split
  · split
    · rfl
    · split <;> rfl
  · rfl

/-- C10 (frame_effect): every `get_metadata` call on a recognized
category creates the category directory and the Outliers directory of
the category, with their missing parents, before any validation; a call
that fails validation performs no effect beyond that directory creation:
it returns no result, invokes nothing and leaves both stores unchanged. -/
theorem dirs_created_every_call {α : Type} (cfg : CatConfig α)
    (is_file : FP → Bool) (file : FP) (st : MHState α) :
    ((get_metadata cfg is_file file st).state.dirs
        = mkdirParents (outlierPath cfg) (mkdirParents (categoryPath cfg) st.dirs)) ∧
    categoryPath cfg ∈ (get_metadata cfg is_file file st).state.dirs ∧
    outlierPath cfg ∈ (get_metadata cfg is_file file st).state.dirs ∧
    (∀ q, q ∈ (outlierPath cfg).inits → ¬ q = [] →
        q ∈ (get_metadata cfg is_file file st).state.dirs) ∧
    (∀ q, q ∈ (categoryPath cfg).inits → ¬ q = [] →
        q ∈ (get_metadata cfg is_file file st).state.dirs) ∧
    (¬ (is_file file = true ∧ file.sfx ∈ cfg.supportedExtensions) →
      (get_metadata cfg is_file file st).result = Except.ok none ∧
      (get_metadata cfg is_file file st).invoked = [] ∧
      (get_metadata cfg is_file file st).state.catStore = st.catStore ∧
      (get_metadata cfg is_file file st).state.outStore = st.outStore) := by
  have hdirs := get_metadata_dirs cfg is_file file st
  have hcatne : ¬ categoryPath cfg = [] := by
    simp [categoryPath]
  have houtne : ¬ outlierPath cfg = [] := by
    simp [outlierPath]
  refine ⟨hdirs, ?_, ?_, ?_, ?_, ?_⟩
  · rw [hdirs]
    exact mem_mkdirParents_of_mem _ _
      (mem_mkdirParents_self (categoryPath cfg) st.dirs hcatne)
  · rw [hdirs]
    exact mem_mkdirParents_self (outlierPath cfg) _ houtne
  · intro q hq hqne
    rw [hdirs]
    exact mem_mkdirParents_of_init _ hq hqne
  · intro q hq hqne
    rw [hdirs]
    exact mem_mkdirParents_of_mem _ _ (mem_mkdirParents_of_init _ hq hqne)
  · intro hcond
    simp [get_metadata, hcond]

/-- Witness for C10 at a concrete input: a validation-failing call on
the book configuration still creates both directories, and changes
nothing else. -/
theorem dirs_created_every_call_witness :
    categoryPath (exCfg [exA, exB])
      ∈ (get_metadata (exCfg [exA, exB]) allFiles exTxtFile emptySt).state.dirs ∧
    outlierPath (exCfg [exA, exB])
      ∈ (get_metadata (exCfg [exA, exB]) allFiles exTxtFile emptySt).state.dirs ∧
    (get_metadata (exCfg [exA, exB]) allFiles exTxtFile emptySt).result
      = Except.ok none ∧
    (get_metadata (exCfg [exA, exB]) allFiles exTxtFile emptySt).invoked = [] ∧
    (get_metadata (exCfg [exA, exB]) allFiles exTxtFile emptySt).state.catStore
      = emptySt.catStore ∧
    (get_metadata (exCfg [exA, exB]) allFiles exTxtFile emptySt).state.outStore
      = emptySt.outStore := by
  have h := dirs_created_every_call (exCfg [exA, exB]) allFiles exTxtFile emptySt
  have h5 := h.2.2.2.2.2 (by decide)
  exact ⟨h.2.1, h.2.2.1, h5.1, h5.2.1, h5.2.2.1, h5.2.2.2⟩

/-- A world holding a valid cached record for the stem of the txt file. -/
def stCached : MHState BookData := ⟨[], [("notes", Payload.valid exBook)], []⟩

/-- C2 counterexample: a file with a cached record but a suffix outside
the allow-list resolves to no result, not to the stored record: the
sanity check of `_get_metadata` runs before the cache lookup. -/
theorem cache_before_validation_cex :
    lookupKey stCached.catStore exTxtFile.stem = some (Payload.valid exBook) ∧
    (get_metadata (exCfg [exA, exB]) allFiles exTxtFile stCached).result
      = Except.ok none ∧
    ¬ (get_metadata (exCfg [exA, exB]) allFiles exTxtFile stCached).result
      = Except.ok (some exBook) := by
  refine ⟨rfl, rfl, fun h => ?_⟩
  have h0 : (get_metadata (exCfg [exA, exB]) allFiles exTxtFile stCached).result
      = Except.ok none := rfl
  rw [h0] at h
  simp at h

/-- C2 amended: the suffix and existence validation runs before the
cache check.  A stored record is returned (with no strategy invocation)
only when the file still is a regular file with an allowed suffix; a
file failing validation resolves to no result with both stores left
untouched, its cached record unread. -/
theorem cache_hit_after_validation {α : Type} (cfg : CatConfig α)
    (is_file : FP → Bool) (file : FP) (st : MHState α) (r : α) :
    (is_file file = true → file.sfx ∈ cfg.supportedExtensions →
      lookupKey st.catStore file.stem = some (Payload.valid r) →
      (get_metadata cfg is_file file st).result = Except.ok (some r) ∧
      (get_metadata cfg is_file file st).invoked = []) ∧
    (¬ (is_file file = true ∧ file.sfx ∈ cfg.supportedExtensions) →
      (get_metadata cfg is_file file st).result = Except.ok none ∧
      (get_metadata cfg is_file file st).invoked = [] ∧
      (get_metadata cfg is_file file st).state.catStore = st.catStore ∧
      (get_metadata cfg is_file file st).state.outStore = st.outStore) := by
  constructor
  · intro hf hs hcache
    have h := get_metadata_cache_hit cfg is_file file st r hf hs hcache
    exact ⟨h.1, h.2.1⟩
  · intro hcond
    simp [get_metadata, hcond]

/-- Witness for the amended C2 at concrete inputs: a cache hit on a
valid pdf returns the stored record; the same store with a txt file
returns nothing and stays unchanged. -/
theorem cache_hit_after_validation_witness :
    ((get_metadata (exCfg [exA, exB]) allFiles
        (⟨"notes", ".pdf"⟩ : FP) stCached).result = Except.ok (some exBook) ∧
     (get_metadata (exCfg [exA, exB]) allFiles
        (⟨"notes", ".pdf"⟩ : FP) stCached).invoked = []) ∧
    ((get_metadata (exCfg [exA, exB]) allFiles exTxtFile stCached).result
        = Except.ok none ∧
     (get_metadata (exCfg [exA, exB]) allFiles exTxtFile stCached).invoked = [] ∧
     (get_metadata (exCfg [exA, exB]) allFiles exTxtFile stCached).state.catStore
        = stCached.catStore ∧
     (get_metadata (exCfg [exA, exB]) allFiles exTxtFile stCached).state.outStore
        = stCached.outStore) :=
  ⟨(cache_hit_after_validation (exCfg [exA, exB]) allFiles
      (⟨"notes", ".pdf"⟩ : FP) stCached exBook).1 rfl (by decide) rfl,
   (cache_hit_after_validation (exCfg [exA, exB]) allFiles exTxtFile stCached
      exBook).2 (by decide)⟩

/-- C1 counterexample: a strategy that raises (as search_isbn does when
its network call fails) makes `_get_metadata` itself raise: the result
is an error, the chain does not advance to the later strategy, although
that later strategy would have succeeded. -/
theorem strategy_exception_cex :
    (get_metadata (exCfg [exRaise, exB]) allFiles exFile emptySt).result
      = Except.error "URLError" ∧
    (get_metadata (exCfg [exRaise, exB]) allFiles exFile emptySt).invoked
      = ["search_isbn"] := by
  constructor <;> rfl

/-- C1 amended: an exception raised inside a strategy invocation is not
caught by the orchestrator: when every earlier chain member is skipped
or misses and a strategy raises, `_get_metadata` propagates the error to
its caller, invokes no later strategy, and writes neither a record nor
an outlier entry (the stores keep their post-cache-read values). -/
theorem strategy_exception_propagates {α : Type} (cfg : CatConfig α)
    (is_file : FP → Bool) (file : FP) (st : MHState α)
    (pre post : List (Extractor α)) (e : Extractor α) (msg : String)
    (hext : cfg.extractors = pre ++ e :: post)
    (hf : is_file file = true) (hs : file.sfx ∈ cfg.supportedExtensions)
    (hcat : (try_from_cache st.catStore file.stem).1 = none)
    (hpre : ∀ x ∈ pre, x.name ∈ failed_of (try_from_cache st.outStore file.stem).1
        ∨ x.run file = StratResult.miss)
    (he : e.name ∉ failed_of (try_from_cache st.outStore file.stem).1)
    (hr : e.run file = StratResult.raised msg) :
    (get_metadata cfg is_file file st).result = Except.error msg ∧
    (get_metadata cfg is_file file st).state.catStore
      = (try_from_cache st.catStore file.stem).2 ∧
    (get_metadata cfg is_file file st).state.outStore
      = (try_from_cache st.outStore file.stem).2 := by
  rcases hch2 : runChain file (failed_of (try_from_cache st.outStore file.stem).1)
      (pre ++ e :: post) with ⟨res, inv⟩
  have hres : res = Except.error msg := by
    have h := runChain_raised file
      (failed_of (try_from_cache st.outStore file.stem).1) pre post e msg hpre he hr
    rw [hch2] at h
    exact h
  subst hres
  simp [get_metadata, hf, hs, hcat, hext, hch2]

/-- Witness for the amended C1 at a concrete input: a raising strategy
ahead of a succeeding one propagates the error and leaves the empty
stores empty. -/
theorem strategy_exception_propagates_witness :
    (get_metadata (exCfg [exRaise, exB]) allFiles exFile emptySt).result
      = Except.error "URLError" ∧
    (get_metadata (exCfg [exRaise, exB]) allFiles exFile emptySt).state.catStore
      = (try_from_cache emptySt.catStore exFile.stem).2 ∧
    (get_metadata (exCfg [exRaise, exB]) allFiles exFile emptySt).state.outStore
      = (try_from_cache emptySt.outStore exFile.stem).2 :=
  strategy_exception_propagates (exCfg [exRaise, exB]) allFiles exFile emptySt
    [] [exB] exRaise "URLError" rfl rfl (by decide) rfl (by simp) (by decide) rfl

/-! Helper lemmas about `get_text` and the engine-invocation log. -/

theorem get_text_hit (e : FP → List Nat) (st : TextCache) (f : FP) (n : Nat)
    (t : List Nat) (h : lookupKey st.entries (f, n) = some t) :
    get_text e st f n = (t, st, 0) := by
  simp [get_text, h]

theorem get_text_miss (e : FP → List Nat) (st : TextCache) (f : FP) (n : Nat)
    (h : lookupKey st.entries (f, n) = none) :
    get_text e st f n
      = (if n = 0 then e f else (e f).take n,
         ⟨((f, n), if n = 0 then e f else (e f).take n) :: st.entries⟩, 1) := by
  simp [get_text, h]

theorem get_text_miss_fst (e : FP → List Nat) (st : TextCache) (f : FP)
    (n : Nat) (h : lookupKey st.entries (f, n) = none) (hn : ¬ n = 0) :
    (get_text e st f n).1 = (e f).take n := by
  simp [get_text, h, hn]

theorem get_text_full (e : FP → List Nat) (st : TextCache) (f : FP)
    (h : lookupKey st.entries (f, 0) = none) :
    (get_text e st f 0).1 = e f := by
  simp [get_text, h]

theorem get_text_len_le (e : FP → List Nat) (st : TextCache) (f : FP) (n : Nat)
    (h : lookupKey st.entries (f, n) = none) (hn : 0 < n) :
    ((get_text e st f n).1).length ≤ n := by
  have hn0 : ¬ n = 0 := Nat.pos_iff_ne_zero.mp hn
  simp [get_text, h, hn0]

theorem get_text_key_cached (e : FP → List Nat) (st : TextCache) (f : FP)
    (n : Nat) :
    lookupKey (get_text e st f n).2.1.entries (f, n)
      = some ((get_text e st f n).1) := by
  rcases hl : lookupKey st.entries (f, n) with _ | t
  · simp [get_text, hl, lookupKey]
  · simp [get_text, hl]

theorem lookup_isSome_mono (e : FP → List Nat) (st : TextCache) (f : FP)
    (n : Nat) (k : FP × Nat) (h : (lookupKey st.entries k).isSome = true) :
    (lookupKey (get_text e st f n).2.1.entries k).isSome = true := by
  rcases hl : lookupKey st.entries (f, n) with _ | t
  · have hk : ¬ ((f, n) = k) := by
      intro he
      rw [he] at hl
      rw [hl] at h
      cases h
    simpa [get_text, hl, lookupKey, hk] using h
  · simpa [get_text, hl] using h

theorem get_text_repeat (e : FP → List Nat) (st : TextCache) (f : FP) (n : Nat) :
    get_text e (get_text e st f n).2.1 f n
      = ((get_text e st f n).1, (get_text e st f n).2.1, 0) :=
  get_text_hit _ _ _ _ _ (get_text_key_cached e st f n)

/-- Occurrence count of a key in an engine-invocation log. -/
def countKey (p : FP × Nat) : List (FP × Nat) → Nat
  | [] => 0
  | q :: rest => (if q = p then 1 else 0) + countKey p rest

theorem countKey_append (p : FP × Nat) (l1 l2 : List (FP × Nat)) :
    countKey p (l1 ++ l2) = countKey p l1 + countKey p l2 := by
  induction l1 with
  | nil => simp [countKey]
  | cons q rest ih => simp [countKey, ih, Nat.add_assoc]

theorem run_calls_count_zero (e : FP → List Nat) (calls : List (FP × Nat)) :
    ∀ (st : TextCache) (p : FP × Nat),
      (lookupKey st.entries p).isSome = true →
      countKey p (run_calls e st calls) = 0 := by
  induction calls with
  | nil => intro st p _; rfl
  | cons c rest ih =>
      intro st p h
      obtain ⟨f, n⟩ := c
      have hmono := lookup_isSome_mono e st f n p h
      have htail := ih (get_text e st f n).2.1 p hmono
      rcases hl : lookupKey st.entries (f, n) with _ | t
      · have hc : ¬ ((f, n) = p) := by
          intro he
          rw [he] at hl
          rw [hl] at h
          cases h
        have hmiss := get_text_miss e st f n hl
        rw [hmiss] at htail
        simp only [run_calls, countKey_append]
        rw [hmiss]
        simp [countKey, hc, htail]
      · have hhit := get_text_hit e st f n t hl
        rw [hhit] at htail
        simp only [run_calls, countKey_append]
        rw [hhit]
        simp [countKey, htail]

theorem run_calls_count_le_one (e : FP → List Nat) (calls : List (FP × Nat)) :
    ∀ (st : TextCache) (p : FP × Nat),
      countKey p (run_calls e st calls) ≤ 1 := by
  induction calls with
  | nil => intro st p; simp [run_calls, countKey]
  | cons c rest ih =>
      intro st p
      obtain ⟨f, n⟩ := c
      by_cases hp : (f, n) = p
      · subst hp
        rcases hl : lookupKey st.entries (f, n) with _ | t
        · have hmiss := get_text_miss e st f n hl
          have h0 := run_calls_count_zero e rest (get_text e st f n).2.1 (f, n)
            (by rw [get_text_key_cached e st f n]; rfl)
          rw [hmiss] at h0
          simp only [run_calls, countKey_append]
          rw [hmiss]
          simp [countKey, h0]
        · have hhit := get_text_hit e st f n t hl
          have h0 := run_calls_count_zero e rest st (f, n) (by rw [hl]; rfl)
          simp only [run_calls, countKey_append]
          rw [hhit]
          simp [countKey, h0]
      · have htail := ih (get_text e st f n).2.1 p
        have hhead : countKey p
            (if (get_text e st f n).2.2 = 1 then [(f, n)] else []) = 0 := by
          by_cases hc : (get_text e st f n).2.2 = 1 <;> simp [hc, countKey, hp]
        simp only [run_calls, countKey_append]
        rw [hhead]
        simpa using htail

/-- C7 (functional_correctness): `get_text` with byte limit 0 returns
the whole extractable text; a positive limit returns at most that many
bytes; a repeated call on the same file and limit returns the memoized
text without invoking the engine again; and over any call sequence from
a fresh cache the engine runs at most once per distinct pair of file and
limit. -/
theorem get_text_contract :
    (∀ (e : FP → List Nat) (st : TextCache) (f : FP),
      lookupKey st.entries (f, 0) = none → (get_text e st f 0).1 = e f) ∧
    (∀ (e : FP → List Nat) (st : TextCache) (f : FP) (n : Nat),
      lookupKey st.entries (f, n) = none → 0 < n →
      ((get_text e st f n).1).length ≤ n) ∧
    (∀ (e : FP → List Nat) (st : TextCache) (f : FP) (n : Nat),
      get_text e (get_text e st f n).2.1 f n
        = ((get_text e st f n).1, (get_text e st f n).2.1, 0)) ∧
    (∀ (e : FP → List Nat) (calls : List (FP × Nat)) (p : FP × Nat),
      countKey p (run_calls e ⟨[]⟩ calls) ≤ 1) :=
  ⟨get_text_full, get_text_len_le, get_text_repeat,
   fun e calls p => run_calls_count_le_one e calls ⟨[]⟩ p⟩

/-- A concrete five-byte extraction engine. -/
def exEngine : FP → List Nat := fun _ => [10, 20, 30, 40, 50]

/-- Witness for C7 at concrete inputs: full read at limit 0, bounded
read at limit 3, memoized repeat, and a double call logging one engine
invocation. -/
theorem get_text_contract_witness :
    (get_text exEngine ⟨[]⟩ exFile 0).1 = exEngine exFile ∧
    ((get_text exEngine ⟨[]⟩ exFile 3).1).length ≤ 3 ∧
    get_text exEngine (get_text exEngine ⟨[]⟩ exFile 3).2.1 exFile 3
      = ((get_text exEngine ⟨[]⟩ exFile 3).1,
         (get_text exEngine ⟨[]⟩ exFile 3).2.1, 0) ∧
    countKey (exFile, 3) (run_calls exEngine ⟨[]⟩ [(exFile, 3), (exFile, 3)]) ≤ 1 :=
  ⟨get_text_contract.1 exEngine ⟨[]⟩ exFile rfl,
   get_text_contract.2.1 exEngine ⟨[]⟩ exFile 3 rfl (by decide),
   get_text_contract.2.2.1 exEngine ⟨[]⟩ exFile 3,
   get_text_contract.2.2.2 exEngine [(exFile, 3), (exFile, 3)] (exFile, 3)⟩

/-- C9 (functional_correctness): a `get_text` call without an explicit
limit uses the default of 4096 bytes, so search_isbn scans exactly the
first 4096 bytes of the extracted text (at most 4096 bytes, and not the
whole text when it is longer); the entire text is returned only by an
explicit limit of 0. -/
theorem isbn_default_limit :
    (∀ (e : FP → List Nat) (findall : List Nat → List String)
        (look : String → Option BookData) (st : TextCache) (f : FP),
      lookupKey st.entries (f, 4096) = none →
      search_isbn e findall look st f
        = (first_lookup_hit (findall ((e f).take 4096)) look,
           ⟨((f, 4096), (e f).take 4096) :: st.entries⟩)) ∧
    (∀ (e : FP → List Nat) (st : TextCache) (f : FP),
      lookupKey st.entries (f, 4096) = none →
      ((get_text_default e st f).1).length ≤ 4096) ∧
    (∃ (e : FP → List Nat) (f : FP), (get_text_default e ⟨[]⟩ f).1 ≠ e f) ∧
    (∀ (e : FP → List Nat) (st : TextCache) (f : FP),
      lookupKey st.entries (f, 0) = none → (get_text e st f 0).1 = e f) := by
  refine ⟨?_, ?_, ?_, get_text_full⟩
  · intro e findall look st f h
    simp [search_isbn, get_text_default, get_text_miss e st f 4096 h]
  · intro e st f h
    exact get_text_len_le e st f 4096 h (by decide)
  · refine ⟨fun _ => List.range 4097, exFile, fun h => ?_⟩
    rw [get_text_default,
      get_text_miss_fst (fun _ => List.range 4097) ⟨[]⟩ exFile 4096 rfl
        (by norm_num)] at h
    have hl := congrArg List.length h
    simp only [List.length_take, List.length_range] at hl
    omega

/-- Witness for C9 at concrete inputs: the concrete search over the
five-byte engine scans the 4096-byte prefix, and the limit 0 call on
the fresh cache returns the full text. -/
theorem isbn_default_limit_witness :
    search_isbn exEngine (fun _ => []) (fun _ => none) ⟨[]⟩ exFile
      = (first_lookup_hit ((fun _ => ([] : List String)) ((exEngine exFile).take 4096))
           (fun _ => none),
         ⟨((exFile, 4096), (exEngine exFile).take 4096) :: ([] : List ((FP × Nat) × List Nat))⟩) ∧
    ((get_text_default exEngine ⟨[]⟩ exFile).1).length ≤ 4096 ∧
    (get_text exEngine ⟨[]⟩ exFile 0).1 = exEngine exFile :=
  ⟨isbn_default_limit.1 exEngine (fun _ => []) (fun _ => none) ⟨[]⟩ exFile rfl,
   isbn_default_limit.2.1 exEngine ⟨[]⟩ exFile rfl,
   isbn_default_limit.2.2.2 exEngine ⟨[]⟩ exFile rfl⟩

/-- Witness for C5 at a concrete input: with the chain of a succeeding
search_isbn before a succeeding backup_book_search, only the first is
invoked and its record is stored. -/
theorem first_success_priority_witness :
    (get_metadata (exCfg [exA, exB]) allFiles exFile emptySt).result
      = Except.ok (some exBook) ∧
    (get_metadata (exCfg [exA, exB]) allFiles exFile emptySt).invoked
      = [exA.name] ∧
    lookupKey (get_metadata (exCfg [exA, exB]) allFiles exFile emptySt).state.catStore
      exFile.stem = some (Payload.valid exBook) :=
  first_success_priority (exCfg [exA, exB]) allFiles exFile emptySt
    exA [exB] exBook rfl rfl (by decide) rfl (by decide) rfl
